import Mathlib

/-!
Verification of the register-virtualization layer of Rellume
(`src/llregfile-internal.h`): the `Facet` enumeration, the per-class
`ValueMap` with its compile-time facet-to-slot lookup table, the
`RegFile` aggregate with its flag cache, and the register get/set/rename
operations.  Machine values (`llvm::Value*`) are modelled as an opaque
type `Val`; an empty slot (`nullptr`) is `none : Option Val`.
-/

namespace Rellume

/-- The `Facet::Value` enumeration from the source, in declaration order
(`LL_VECTOR_REGISTER_SIZE = 128`, so no `I256`).  `MAX` is not a facet;
it is represented by `Facet.MAX : Nat` below. -/
inductive Facet : Type where
  | I64 | I32 | I16 | I8 | I8H | PTR
  | I128
  | V1I8 | V2I8 | V4I8 | V8I8 | V16I8
  | V1I16 | V2I16 | V4I16 | V8I16
  | V1I32 | V2I32 | V4I32
  | V1I64 | V2I64
  | V1F32 | V2F32 | V4F32
  | V1F64 | V2F64
  | F32 | F64
  | I | VI8 | VI16 | VI32 | VI64 | VF32 | VF64
  deriving DecidableEq, Repr

/-- Numeric value of each enumerator, following the declaration order of
the C++ `enum Facet::Value`. -/
def Facet.toNat : Facet → Nat
  | .I64 => 0 | .I32 => 1 | .I16 => 2 | .I8 => 3 | .I8H => 4 | .PTR => 5
  | .I128 => 6
  | .V1I8 => 7 | .V2I8 => 8 | .V4I8 => 9 | .V8I8 => 10 | .V16I8 => 11
  | .V1I16 => 12 | .V2I16 => 13 | .V4I16 => 14 | .V8I16 => 15
  | .V1I32 => 16 | .V2I32 => 17 | .V4I32 => 18
  | .V1I64 => 19 | .V2I64 => 20
  | .V1F32 => 21 | .V2F32 => 22 | .V4F32 => 23
  | .V1F64 => 24 | .V2F64 => 25
  | .F32 => 26 | .F64 => 27
  | .I => 28 | .VI8 => 29 | .VI16 => 30 | .VI32 => 31 | .VI64 => 32
  | .VF32 => 33 | .VF64 => 34

/-- `Facet::MAX`, the number of enumerators before `MAX`. -/
def Facet.MAX : Nat := 35

/-- The pseudo-facets (`// Pseudo-facets` block of the enum): legal only
as query inputs, never as slot keys. -/
def pseudoFacets : List Facet :=
  [.I, .VI8, .VI16, .VI32, .VI64, .VF32, .VF64]

/-- The backward table `b` of `ValueMap::LookupTable`: the constructor
zero-initializes `b` and then, for the `i`-th element `elem` of the
initializer list, stores `b[elem] = 1 + i`.  A later duplicate would
overwrite an earlier entry, hence the recursion prefers the tail.
`k` is the index of the head of `E` in the original list. -/
def backward : List Facet → Nat → Facet → Nat
  | [], _, _ => 0
  | e :: rest, k, v =>
      let r := backward rest (k + 1) v
      if r ≠ 0 then r else if e = v then k + 1 else 0

/-- A `ValueMap<E...>` instance: `facets` is the template parameter pack
(the class's supported-facet list, realised as the forward table `f`),
`values` is the slot array `llvm::Value* values[sizeof...(E)]`, one slot
per supported facet, `none` standing for `nullptr`. -/
@[ext]
structure ValueMap (Val : Type) where
  facets : List Facet
  values : List (Option Val)

namespace ValueMap

/-- The slot position designated by `ValueMap::at`: the assertion
`table.b[v] > 0` fires (modelled as `none`, a fatal abort) when the
facet is unsupported; otherwise the slot index is `table.b[v] - 1`. -/
def atIdx? {Val : Type} (m : ValueMap Val) (v : Facet) : Option Nat :=
  let b := backward m.facets 0 v
  if b = 0 then none else some (b - 1)

/-- Read through `ValueMap::at`: `none` is the fatal assertion failure,
`some s` the contents of the designated slot. -/
def atGet {Val : Type} (m : ValueMap Val) (v : Facet) : Option (Option Val) :=
  (m.atIdx? v).map fun i => m.values.getD i none

/-- Write through `ValueMap::at`: `none` is the fatal assertion failure,
`some m'` the map with the designated slot overwritten. -/
def atSet {Val : Type} (m : ValueMap Val) (v : Facet) (x : Option Val) :
    Option (ValueMap Val) :=
  (m.atIdx? v).map fun i => { m with values := m.values.set i x }

/-- `ValueMap::clear`: `std::fill_n(values, sizeof...(E), nullptr)`. -/
def clear {Val : Type} (m : ValueMap Val) : ValueMap Val :=
  { m with values := List.replicate m.facets.length none }

end ValueMap

/-- `ValueMapGp`: the general-purpose register class instantiation
(source line 141). -/
def gpFacets : List Facet := [.I64, .I32, .I16, .I8, .I8H, .PTR]

/-- `ValueMapSse`: the vector register class instantiation
(source lines 142-152, with `LL_VECTOR_REGISTER_SIZE = 128`). -/
def sseFacets : List Facet :=
  [.I128,
   .I8, .V1I8, .V2I8, .V4I8, .V8I8, .V16I8,
   .I16, .V1I16, .V2I16, .V4I16, .V8I16,
   .I32, .V1I32, .V2I32, .V4I32,
   .I64, .V1I64, .V2I64,
   .F32, .V1F32, .V2F32, .V4F32,
   .F64, .V1F64, .V2F64]

/-- `RegFile::FlagCache` (source lines 157-166).  `lhs`/`rhs` are
`llvm::Value*`, modelled as `Option Val` (`none` = null pointer). -/
structure FlagCache (Val : Type) where
  valid : Bool
  lhs : Option Val
  rhs : Option Val

namespace FlagCache

/-- The constructor `FlagCache() : valid(false) {}`: only `valid` is
initialized; `lhs`/`rhs` keep indeterminate contents `l`, `r`. -/
def init {Val : Type} (l r : Option Val) : FlagCache Val :=
  { valid := false, lhs := l, rhs := r }

/-- `FlagCache::update(op1, op2)`: `lhs = op1; rhs = op2; valid = true;`. -/
def update {Val : Type} (_c : FlagCache Val) (op1 op2 : Option Val) :
    FlagCache Val :=
  { valid := true, lhs := op1, rhs := op2 }

/-- States reachable from a `FlagCache` by any sequence of calls to its
sole mutating operation, `update`. -/
inductive Reach {Val : Type} : FlagCache Val → FlagCache Val → Prop where
  | refl (c : FlagCache Val) : Reach c c
  | step (a b : FlagCache Val) (l r : Option Val) :
      Reach a b → Reach a (b.update l r)

end FlagCache

/-- The register class of an `LLReg` key: general-purpose (`regs_gp`
array) or vector (`regs_sse` array). -/
inductive RegClass : Type where
  | gp | sse
  deriving DecidableEq, Repr

/-- The supported-facet list of each register class (the template
arguments of `ValueMapGp` resp. `ValueMapSse`). -/
def classFacets : RegClass → List Facet
  | .gp => gpFacets
  | .sse => sseFacets

/-- A register identifier: class plus index within the class's array.
The core only uses it to index `regs_gp`/`regs_sse`. -/
structure LLReg where
  rt : RegClass
  ri : Nat
  deriving DecidableEq, Repr

/-- The `RegFile` state (source lines 182-189): one `ValueMap` per
register of each class, the instruction-pointer slot `reg_ip`, the flag
slots `flags[RFLAG_Max]`, and the `FlagCache`.  The `llvm::BasicBlock*`
is an opaque token. -/
@[ext]
structure RegFile (Val : Type) where
  llvm_block : Nat
  regs : RegClass → Nat → ValueMap Val
  reg_ip : Option Val
  flags : Nat → Option Val
  flag_cache : FlagCache Val

namespace RegFile

/-- The constructor `RegFile(llvm::BasicBlock*)` (source lines 168-169):
its init-list sets only `llvm_block` and `flag_cache` (whose default
constructor sets `valid = false` and leaves `lhs`/`rhs` indeterminate);
the register maps, `reg_ip` and the flag slots are left with whatever
indeterminate contents `indet` they happen to hold. -/
def construct {Val : Type} (block : Nat) (indet : RegFile Val) : RegFile Val :=
  { llvm_block := block
    regs := indet.regs
    reg_ip := indet.reg_ip
    flags := indet.flags
    flag_cache := { valid := false
                    lhs := indet.flag_cache.lhs
                    rhs := indet.flag_cache.rhs } }

/-- Replace the `ValueMap` of one register, leaving all others alone. -/
def setRegMap {Val : Type} (rf : RegFile Val) (r : LLReg) (m : ValueMap Val) :
    RegFile Val :=
  { rf with regs := fun c i => if c = r.rt ∧ i = r.ri then m else rf.regs c i }

/-- Modelled from the spec: the body of `RegFile::SetReg` is not in the
repository slice (the header only declares it, line 172).  Spec §4.3
`SetValue`: "stores `value` into `reg`'s `facet` slot unconditionally.
If `clearOtherFacets` is true, every other slot of `reg` is reset to
empty"; no conversion is performed on write.  `none` models the fatal
contract violation of an unsupported facet. -/
def SetReg {Val : Type} (rf : RegFile Val) (reg : LLReg) (facet : Facet)
    (value : Val) (clear_facets : Bool) : Option (RegFile Val) :=
  let m := rf.regs reg.rt reg.ri
  let m0 := if clear_facets then m.clear else m
  (m0.atSet facet (some value)).map fun m2 => rf.setRegMap reg m2

end RegFile

/-- Scan a facet list in order for the first facet whose slot of `m` is
populated, returning it with its value. -/
def findPopulated {Val : Type} (m : ValueMap Val) :
    List Facet → Option (Facet × Val)
  | [] => none
  | f :: rest =>
      match m.atGet f with
      | some (some v) => some (f, v)
      | _ => findPopulated m rest

/-- Modelled from the spec: the body of `RegFile::GetReg` is not in the
repository slice (the header only declares it, line 171).  Spec §4.3
`GetValue` on one register's map: a populated slot is returned unchanged
(no conversion); otherwise the register's supported facets are scanned
in their fixed declaration order for a populated source facet, the
backend conversion `conv value srcFacet dstFacet` is requested, and the
requested slot is populated with the result before it is returned
(cache-on-read).  `none` models the two fatal cases: an unsupported
facet, and a register with no populated facet at all. -/
def ValueMap.getReg {Val : Type} (conv : Val → Facet → Facet → Val)
    (m : ValueMap Val) (facet : Facet) : Option (Val × ValueMap Val) :=
  match m.atGet facet with
  | none => none
  | some (some v) => some (v, m)
  | some none =>
      match findPopulated m m.facets with
      | none => none
      | some (src, sv) =>
          let nv := conv sv src facet
          (m.atSet facet (some nv)).map fun m2 => (nv, m2)

/-- `GetReg` at the `RegFile` level: act on the register's map and write
the possibly-updated map back. -/
def RegFile.GetReg {Val : Type} (conv : Val → Facet → Facet → Val)
    (rf : RegFile Val) (reg : LLReg) (facet : Facet) :
    Option (Val × RegFile Val) :=
  (ValueMap.getReg conv (rf.regs reg.rt reg.ri) facet).map
    fun p => (p.1, rf.setRegMap reg p.2)

/-- Modelled from the spec: the body of `RegFile::Rename` is not in the
repository slice (the header only declares it, line 173).  Spec §4.3
`Rename(dst, src)`: "copies the entire populated/empty state of every
facet slot from `src` to `dst` (same-class registers only).  This is a
value copy, not aliasing."  A cross-class rename is a contract
violation, modelled as `none`. -/
def RegFile.Rename {Val : Type} (rf : RegFile Val) (dst src : LLReg) :
    Option (RegFile Val) :=
  if dst.rt = src.rt then
    some (rf.setRegMap dst (rf.regs src.rt src.ri))
  else
    none

/-- A `ValueMap` is well-formed for a facet list when its forward table
is that list and its slot array has matching size (true by construction
for every `ValueMap<E...>` instantiation). -/
def ValueMap.WF {Val : Type} (m : ValueMap Val) (E : List Facet) : Prop :=
  m.facets = E ∧ m.values.length = E.length

/-- A `RegFile` is well-formed when every register's map is the
instantiation of its class. -/
def RegFile.WF {Val : Type} (rf : RegFile Val) : Prop :=
  ∀ (c : RegClass) (i : Nat), (rf.regs c i).WF (classFacets c)

/-- A `RegFile` in which every slot is empty: each register map has the
slots of its class all `nullptr`, `reg_ip` and all flag slots empty. -/
def RegFile.AllEmpty {Val : Type} (rf : RegFile Val) : Prop :=
  (∀ (c : RegClass) (i : Nat), ∀ s ∈ (rf.regs c i).values, s = none) ∧
  rf.reg_ip = none ∧ (∀ j : Nat, rf.flags j = none)

/-- A concrete backend-conversion oracle over `Val := Nat`, used to
instantiate theorems at concrete inputs: the result encodes the source
value and both facets, so distinct conversions are distinguishable. -/
def convNat : Nat → Facet → Facet → Nat :=
  fun v s d => v * 10000 + s.toNat * 100 + d.toNat

/-- The all-slots-empty `ValueMap` of a register class. -/
def emptyMap (Val : Type) (c : RegClass) : ValueMap Val :=
  { facets := classFacets c
    values := List.replicate (classFacets c).length none }

/-- A concrete well-formed `RegFile` over `Val := Nat` with every slot
empty, used to instantiate theorems at concrete inputs. -/
def rfEmpty : RegFile Nat :=
  { llvm_block := 0
    regs := fun c _ => emptyMap Nat c
    reg_ip := none
    flags := fun _ => none
    flag_cache := { valid := false, lhs := none, rhs := none } }

/-- The public member functions declared by `class RegFile`
(source lines 156-180), in declaration order. -/
def RegFilePublicMembers : List String :=
  ["FlagCache", "RegFile", "GetReg", "SetReg", "Rename",
   "GetFlag", "SetFlag", "GetFlagCache"]

/-- The private data members declared by `class RegFile`
(source lines 182-189), in declaration order. -/
def RegFilePrivateMembers : List String :=
  ["llvm_block", "regs_gp", "regs_sse", "reg_ip", "flags", "flag_cache"]

/-! ### Auxiliary lemmas about lists -/

theorem getD_set_self {α : Type} (l : List α) (i : Nat) (hi : i < l.length)
    (a d : α) : (l.set i a).getD i d = a := by
  induction l generalizing i with
  | nil => simp at hi
  | cons x xs ih =>
    cases i with
    | zero => simp [List.getD]
    | succ j => simpa [List.getD] using ih j (by simpa using hi)

theorem getD_set_ne {α : Type} (l : List α) (i j : Nat) (h : i ≠ j)
    (a d : α) : (l.set i a).getD j d = l.getD j d := by
  induction l generalizing i j with
  | nil => simp
  | cons x xs ih =>
    cases i with
    | zero =>
      cases j with
      | zero => exact absurd rfl h
      | succ j2 => simp [List.getD]
    | succ i2 =>
      cases j with
      | zero => simp [List.getD]
      | succ j2 => simpa [List.getD] using ih i2 j2 (fun hh => h (by omega))

theorem getD_replicate_none {α : Type} (n j : Nat) :
    (List.replicate n (none : Option α)).getD j none = none := by
  induction n generalizing j with
  | zero => simp
  | succ m ih =>
    cases j with
    | zero => simp [List.replicate, List.getD]
    | succ j2 =>
      have h2 := ih j2
      simp only [List.replicate, List.getD_cons_succ]
      exact h2

/-! ### Properties of the backward lookup table -/

theorem backward_eq_zero_iff (E : List Facet) (k : Nat) (v : Facet) :
    backward E k v = 0 ↔ v ∉ E := by
  induction E generalizing k with
  | nil => simp [backward]
  | cons e rest ih =>
    simp only [backward, List.mem_cons]
    by_cases hr : backward rest (k + 1) v = 0
    · have hv : v ∉ rest := (ih (k + 1)).mp hr
      by_cases he : e = v
      · simp [hr, he]
      · simp only [hr, ne_eq, not_true_eq_false, if_false, he, hv, or_false,
          not_false_eq_true, iff_true]
        exact iff_of_true trivial fun h => he (Eq.symm h)
    · have hv : v ∈ rest := by
        by_contra h
        exact hr ((ih (k + 1)).mpr h)
      simp [hr, hv]

theorem backward_le (E : List Facet) (k : Nat) (v : Facet) :
    backward E k v ≤ k + E.length := by
  induction E generalizing k with
  | nil => simp [backward]
  | cons e rest ih =>
    simp only [backward, List.length_cons]
    have h1 := ih (k + 1)
    by_cases hr : backward rest (k + 1) v = 0
    · by_cases he : e = v
      · simp only [hr, ne_eq, not_true_eq_false, if_false, he, if_true]
        omega
      · simp [hr, he]
    · simp only [ne_eq, hr, not_false_eq_true, if_true]
      omega

theorem backward_getElem (E : List Facet) (hE : E.Nodup) (k i : Nat)
    (hi : i < E.length) : backward E k (E[i]) = k + i + 1 := by
  induction E generalizing k i with
  | nil => simp at hi
  | cons e rest ih =>
    obtain ⟨hmem, hnd⟩ := List.nodup_cons.mp hE
    cases i with
    | zero =>
      have hz : backward rest (k + 1) e = 0 :=
        (backward_eq_zero_iff rest (k + 1) e).mpr hmem
      simp [backward, hz]
    | succ i2 =>
      have hi2 : i2 < rest.length := by simpa using hi
      have hr : backward rest (k + 1) (rest[i2]) = (k + 1) + i2 + 1 :=
        ih hnd (k + 1) i2 hi2
      have hne : backward rest (k + 1) (rest[i2]) ≠ 0 := by omega
      have hget : (e :: rest)[i2 + 1] = rest[i2] := by simp
      simp only [backward, hget, ne_eq, hne, not_false_eq_true, if_true]
      omega

theorem atIdx?_eq_none_iff {Val : Type} (m : ValueMap Val) (v : Facet) :
    m.atIdx? v = none ↔ v ∉ m.facets := by
  simp only [ValueMap.atIdx?]
  by_cases h : backward m.facets 0 v = 0
  · simp [h, (backward_eq_zero_iff m.facets 0 v).mp h]
  · have : v ∈ m.facets := by
      by_contra hv
      exact h ((backward_eq_zero_iff m.facets 0 v).mpr hv)
    simp [h, this]

theorem atIdx?_getElem {Val : Type} (m : ValueMap Val) (hE : m.facets.Nodup)
    (i : Nat) (hi : i < m.facets.length) :
    m.atIdx? (m.facets[i]) = some i := by
  have hb : backward m.facets 0 (m.facets[i]) = 0 + i + 1 :=
    backward_getElem m.facets hE 0 i hi
  simp [ValueMap.atIdx?, hb]

/-! ### Properties of the ValueMap and RegFile operations -/

theorem regs_setRegMap {Val : Type} (rf : RegFile Val) (r : LLReg)
    (m : ValueMap Val) (c : RegClass) (i : Nat) :
    (rf.setRegMap r m).regs c i =
      if c = r.rt ∧ i = r.ri then m else rf.regs c i := rfl

theorem setRegMap_same {Val : Type} (rf : RegFile Val) (r : LLReg)
    (m : ValueMap Val) : (rf.setRegMap r m).regs r.rt r.ri = m := by
  simp [regs_setRegMap]

theorem setRegMap_other {Val : Type} (rf : RegFile Val) (r : LLReg)
    (m : ValueMap Val) (c : RegClass) (i : Nat)
    (h : ¬(c = r.rt ∧ i = r.ri)) :
    (rf.setRegMap r m).regs c i = rf.regs c i := by
  simp [regs_setRegMap, h]

theorem setRegMap_eq_self {Val : Type} (rf : RegFile Val) (r : LLReg)
    (m : ValueMap Val) (h : rf.regs r.rt r.ri = m) :
    rf.setRegMap r m = rf := by
  have hregs : (rf.setRegMap r m).regs = rf.regs := by
    funext c i
    show (if c = r.rt ∧ i = r.ri then m else rf.regs c i) = rf.regs c i
    by_cases hc : c = r.rt ∧ i = r.ri
    · rw [if_pos hc, hc.1, hc.2, h]
    · rw [if_neg hc]
  exact RegFile.ext rfl hregs rfl rfl rfl

theorem atGet_of_idx {Val : Type} (m : ValueMap Val) (v : Facet) (i : Nat)
    (h : m.atIdx? v = some i) :
    m.atGet v = some (m.values.getD i none) := by
  simp [ValueMap.atGet, h]

theorem atSet_of_idx {Val : Type} (m : ValueMap Val) (v : Facet) (i : Nat)
    (x : Option Val) (h : m.atIdx? v = some i) :
    m.atSet v x = some { m with values := m.values.set i x } := by
  simp [ValueMap.atSet, h]

theorem getReg_populated {Val : Type} (conv : Val → Facet → Facet → Val)
    (m : ValueMap Val) (f : Facet) (v : Val)
    (h : m.atGet f = some (some v)) :
    ValueMap.getReg conv m f = some (v, m) := by
  simp [ValueMap.getReg, h]

theorem findPopulated_eq {Val : Type} (m : ValueMap Val) (L : List Facet)
    (F : Facet) (V : Val) (hF : F ∈ L) (hFv : m.atGet F = some (some V))
    (hother : ∀ G ∈ L, G ≠ F → m.atGet G = some none) :
    findPopulated m L = some (F, V) := by
  induction L with
  | nil => simp at hF
  | cons e rest ih =>
    by_cases he : e = F
    · subst he
      simp [findPopulated, hFv]
    · have hee : m.atGet e = some none :=
        hother e (List.mem_cons_self e rest) he
      have hFr : F ∈ rest := by
        rcases List.mem_cons.mp hF with h | h
        · exact absurd (Eq.symm h) he
        · exact h
      have hor : ∀ G ∈ rest, G ≠ F → m.atGet G = some none :=
        fun G hG => hother G (List.mem_cons_of_mem e hG)
      simp [findPopulated, hee, ih hFr hor]

theorem getReg_synthesize {Val : Type} (conv : Val → Facet → Facet → Val)
    (m : ValueMap Val) (g F : Facet) (V : Val) (ig : Nat)
    (hg : m.atGet g = some none) (hig : m.atIdx? g = some ig)
    (hfind : findPopulated m m.facets = some (F, V)) :
    ValueMap.getReg conv m g =
      some (conv V F g, { m with values := m.values.set ig (some (conv V F g)) }) := by
  simp [ValueMap.getReg, hg, hfind, atSet_of_idx m g ig _ hig]

theorem atIdx?_isSome_of_mem {Val : Type} (m : ValueMap Val) (v : Facet)
    (h : v ∈ m.facets) : ∃ i, m.atIdx? v = some i := by
  have hb : backward m.facets 0 v ≠ 0 := fun h0 =>
    ((backward_eq_zero_iff m.facets 0 v).mp h0) h
  exact ⟨backward m.facets 0 v - 1, by simp [ValueMap.atIdx?, hb]⟩

/-- Writing facet `F` through `at` after a `clear` leaves `F`'s slot
holding the written value and every other supported slot empty. -/
theorem vm_set_clear {Val : Type} (m : ValueMap Val) (E : List Facet)
    (hfac : m.facets = E) (hE : E.Nodup) (F : Facet) (V : Val) (hF : F ∈ E) :
    ∃ m2, m.clear.atSet F (some V) = some m2 ∧
      m2.facets = E ∧
      m2.atGet F = some (some V) ∧
      (∀ G ∈ E, G ≠ F → m2.atGet G = some none) := by
  subst hfac
  obtain ⟨iF, hiF, hFe⟩ := List.mem_iff_getElem.mp hF
  have hidxF : m.atIdx? F = some iF := by
    have h := atIdx?_getElem m hE iF hiF
    rw [hFe] at h
    exact h
  have hidxF2 : m.clear.atIdx? F = some iF := hidxF
  refine ⟨_, atSet_of_idx m.clear F iF (some V) hidxF2, rfl, ?_, ?_⟩
  · have hg := atGet_of_idx
      { m.clear with values := m.clear.values.set iF (some V) } F iF hidxF
    rw [hg]
    have : (m.clear.values.set iF (some V)).getD iF none = some V :=
      getD_set_self m.clear.values iF
        (by simp [ValueMap.clear, hiF]) (some V) none
    rw [this]
  · intro G hG hne
    obtain ⟨iG, hiG, hGe⟩ := List.mem_iff_getElem.mp hG
    have hidxG : m.atIdx? G = some iG := by
      have h := atIdx?_getElem m hE iG hiG
      rw [hGe] at h
      exact h
    have hne2 : iF ≠ iG := by
      intro hh
      subst hh
      exact hne (hGe.symm.trans hFe)
    have hg := atGet_of_idx
      { m.clear with values := m.clear.values.set iF (some V) } G iG hidxG
    rw [hg]
    have h1 : (m.clear.values.set iF (some V)).getD iG none =
        m.clear.values.getD iG none :=
      getD_set_ne m.clear.values iF iG hne2 (some V) none
    have h2 : m.clear.values.getD iG none = none :=
      getD_replicate_none m.facets.length iG
    rw [h1, h2]

/-- In a map whose only populated slot is facet `F` (holding `V`),
reading `F` hands back `V` with no conversion, and reading any other
supported facet `G` synthesizes `conv V F G` from `F`. -/
theorem vm_getReg_after {Val : Type} (conv : Val → Facet → Facet → Val)
    (m2 : ValueMap Val) (E : List Facet) (hfac : m2.facets = E)
    (F : Facet) (V : Val) (hF : F ∈ E) (hFm : m2.atGet F = some (some V))
    (hother : ∀ G ∈ E, G ≠ F → m2.atGet G = some none) :
    ValueMap.getReg conv m2 F = some (V, m2) ∧
    (∀ G ∈ E, G ≠ F →
      ∃ m3, ValueMap.getReg conv m2 G = some (conv V F G, m3)) := by
  subst hfac
  refine ⟨getReg_populated conv m2 F V hFm, ?_⟩
  intro G hG hne
  obtain ⟨iG, hiG⟩ := atIdx?_isSome_of_mem m2 G hG
  have hfind : findPopulated m2 m2.facets = some (F, V) :=
    findPopulated_eq m2 m2.facets F V hF hFm hother
  exact ⟨_, getReg_synthesize conv m2 G F V iG (hother G hG hne) hiG hfind⟩

/-- The value returned by `RegFile::GetReg` depends only on the
addressed register's map. -/
theorem getReg_fst {Val : Type} (conv : Val → Facet → Facet → Val)
    (rf : RegFile Val) (reg : LLReg) (f : Facet) :
    (rf.GetReg conv reg f).map Prod.fst =
      (ValueMap.getReg conv (rf.regs reg.rt reg.ri) f).map Prod.fst := by
  cases h : ValueMap.getReg conv (rf.regs reg.rt reg.ri) f <;>
    simp [RegFile.GetReg, h]

theorem classFacets_nodup (c : RegClass) : (classFacets c).Nodup := by
  cases c <;> decide

/-! ### Claim theorems -/

/-- C1: for every register `R`, supported facet `F` and value `V`, after
`SetReg R F V true` (set with `clear_facets = true`) reading `F` returns
`V` itself with no conversion and no state change, and every other
supported facet `G` of `R`'s class has an empty slot, so a subsequent
`GetReg` on `G` performs fresh synthesis (its result is the conversion
of `V`, not any value cached before the `SetReg`). -/
theorem setreg_clear_get {Val : Type} (conv : Val → Facet → Facet → Val)
    (rf : RegFile Val) (hwf : rf.WF) (R : LLReg) (F : Facet) (V : Val)
    (hF : F ∈ classFacets R.rt) :
    ∃ rf2, rf.SetReg R F V true = some rf2 ∧
      rf2.GetReg conv R F = some (V, rf2) ∧
      (∀ G ∈ classFacets R.rt, G ≠ F →
        (rf2.regs R.rt R.ri).atGet G = some none ∧
        ∃ rf3, rf2.GetReg conv R G = some (conv V F G, rf3)) := by
  obtain ⟨rt, ri⟩ := R
  obtain ⟨hfac, _⟩ := hwf rt ri
  have hE : (classFacets rt).Nodup := classFacets_nodup rt
  obtain ⟨m2, hset, hm2fac, hm2F, hm2other⟩ :=
    vm_set_clear (rf.regs rt ri) (classFacets rt) hfac hE F V hF
  have hsetreg : rf.SetReg ⟨rt, ri⟩ F V true =
      some (rf.setRegMap ⟨rt, ri⟩ m2) := by
    show (((rf.regs rt ri).clear).atSet F (some V)).map
      (fun mm => rf.setRegMap ⟨rt, ri⟩ mm) = _
    rw [hset]
    rfl
  refine ⟨rf.setRegMap ⟨rt, ri⟩ m2, hsetreg, ?_, ?_⟩
  · have hlook : (rf.setRegMap ⟨rt, ri⟩ m2).regs rt ri = m2 :=
      setRegMap_same rf ⟨rt, ri⟩ m2
    obtain ⟨hpop, _⟩ :=
      vm_getReg_after conv m2 (classFacets rt) hm2fac F V hF hm2F hm2other
    show ((ValueMap.getReg conv ((rf.setRegMap ⟨rt, ri⟩ m2).regs rt ri) F).map
      fun p => (p.1, (rf.setRegMap ⟨rt, ri⟩ m2).setRegMap ⟨rt, ri⟩ p.2)) = _
    rw [hlook, hpop]
    show some (V, (rf.setRegMap ⟨rt, ri⟩ m2).setRegMap ⟨rt, ri⟩ m2) = _
    rw [setRegMap_eq_self _ _ _ hlook]
  · intro G hG hne
    have hlook : (rf.setRegMap ⟨rt, ri⟩ m2).regs rt ri = m2 :=
      setRegMap_same rf ⟨rt, ri⟩ m2
    obtain ⟨_, hsynth⟩ :=
      vm_getReg_after conv m2 (classFacets rt) hm2fac F V hF hm2F hm2other
    obtain ⟨m3, hm3⟩ := hsynth G hG hne
    refine ⟨by rw [hlook]; exact hm2other G hG hne, ?_⟩
    refine ⟨(rf.setRegMap ⟨rt, ri⟩ m2).setRegMap ⟨rt, ri⟩ m3, ?_⟩
    show ((ValueMap.getReg conv ((rf.setRegMap ⟨rt, ri⟩ m2).regs rt ri) G).map
      fun p => (p.1, (rf.setRegMap ⟨rt, ri⟩ m2).setRegMap ⟨rt, ri⟩ p.2)) = _
    rw [hlook, hm3]
    rfl

/-- Witness for C1, at `Val := Nat`, the general-purpose register 0,
facet `I32` and value 7. -/
theorem setreg_clear_get_witness :
    rfEmpty.WF ∧ Facet.I32 ∈ classFacets RegClass.gp ∧
    (∃ rf2, rfEmpty.SetReg ⟨RegClass.gp, 0⟩ Facet.I32 7 true = some rf2 ∧
      rf2.GetReg convNat ⟨RegClass.gp, 0⟩ Facet.I32 = some (7, rf2) ∧
      (∀ G ∈ classFacets RegClass.gp, G ≠ Facet.I32 →
        (rf2.regs RegClass.gp 0).atGet G = some none ∧
        ∃ rf3, rf2.GetReg convNat ⟨RegClass.gp, 0⟩ G =
          some (convNat 7 Facet.I32 G, rf3))) := by
  have hwf : rfEmpty.WF := fun c _ => ⟨rfl, by cases c <;> rfl⟩
  exact ⟨hwf, by decide,
    setreg_clear_get convNat rfEmpty hwf ⟨RegClass.gp, 0⟩ Facet.I32 7
      (by decide)⟩

/-- C5: `Rename dst src` (same class) copies the entire populated/empty
slot state from `src` to `dst` as a value copy: every read of `dst`
right after the rename returns what the same read of `src` would have
returned right before it, `src`'s map is unchanged, and a later
`SetReg dst F V2 true` changes neither `src`'s map nor any subsequent
read of `src`. -/
theorem rename_value_copy {Val : Type} (conv : Val → Facet → Facet → Val)
    (rf : RegFile Val) (dst src : LLReg) (hclass : dst.rt = src.rt) :
    ∃ rf2, rf.Rename dst src = some rf2 ∧
      rf2.regs dst.rt dst.ri = rf.regs src.rt src.ri ∧
      (∀ F : Facet, (rf2.GetReg conv dst F).map Prod.fst =
          (rf.GetReg conv src F).map Prod.fst) ∧
      (dst ≠ src → rf2.regs src.rt src.ri = rf.regs src.rt src.ri) ∧
      (dst ≠ src → ∀ (F : Facet) (V : Val) (rf3 : RegFile Val),
          rf2.SetReg dst F V true = some rf3 →
          rf3.regs src.rt src.ri = rf.regs src.rt src.ri ∧
          ∀ G : Facet, (rf3.GetReg conv src G).map Prod.fst =
              (rf.GetReg conv src G).map Prod.fst) := by
  have hkey : dst ≠ src → ¬(src.rt = dst.rt ∧ src.ri = dst.ri) := by
    rintro hne ⟨h1, h2⟩
    refine hne ?_
    cases dst
    cases src
    simp_all
  have hren : rf.Rename dst src =
      some (rf.setRegMap dst (rf.regs src.rt src.ri)) := by
    simp [RegFile.Rename, hclass]
  refine ⟨_, hren, setRegMap_same rf dst _, ?_, ?_, ?_⟩
  · intro F
    rw [getReg_fst, getReg_fst, setRegMap_same]
  · intro hne
    exact setRegMap_other rf dst _ src.rt src.ri (hkey hne)
  · intro hne F V rf3 hset
    have hset2 : (((rf.setRegMap dst (rf.regs src.rt src.ri)).regs dst.rt
          dst.ri).clear.atSet F (some V)).map
        (fun mm => (rf.setRegMap dst (rf.regs src.rt src.ri)).setRegMap dst
          mm) = some rf3 := hset
    cases h2 : ((rf.setRegMap dst (rf.regs src.rt src.ri)).regs dst.rt
        dst.ri).clear.atSet F (some V) with
    | none =>
      rw [h2] at hset2
      exact absurd hset2 (by simp)
    | some mm =>
      rw [h2] at hset2
      have hrf3 : rf3 =
          (rf.setRegMap dst (rf.regs src.rt src.ri)).setRegMap dst mm := by
        have h3 := hset2
        simp only [Option.map] at h3
        exact (Option.some.injEq _ _ ▸ h3).symm
      subst hrf3
      have hsrc : ((rf.setRegMap dst (rf.regs src.rt src.ri)).setRegMap dst
          mm).regs src.rt src.ri = rf.regs src.rt src.ri := by
        rw [setRegMap_other _ dst mm src.rt src.ri (hkey hne)]
        exact setRegMap_other rf dst _ src.rt src.ri (hkey hne)
      refine ⟨hsrc, ?_⟩
      intro G
      rw [getReg_fst, getReg_fst, hsrc]

/-- Witness for C5, at `Val := Nat`, renaming general-purpose register 0
into general-purpose register 1. -/
theorem rename_value_copy_witness :
    (⟨RegClass.gp, 1⟩ : LLReg).rt = (⟨RegClass.gp, 0⟩ : LLReg).rt ∧
    (∃ rf2, rfEmpty.Rename ⟨RegClass.gp, 1⟩ ⟨RegClass.gp, 0⟩ = some rf2 ∧
      rf2.regs RegClass.gp 1 = rfEmpty.regs RegClass.gp 0 ∧
      (∀ F : Facet, (rf2.GetReg convNat ⟨RegClass.gp, 1⟩ F).map Prod.fst =
          (rfEmpty.GetReg convNat ⟨RegClass.gp, 0⟩ F).map Prod.fst) ∧
      ((⟨RegClass.gp, 1⟩ : LLReg) ≠ ⟨RegClass.gp, 0⟩ →
        rf2.regs RegClass.gp 0 = rfEmpty.regs RegClass.gp 0) ∧
      ((⟨RegClass.gp, 1⟩ : LLReg) ≠ ⟨RegClass.gp, 0⟩ →
        ∀ (F : Facet) (V : Nat) (rf3 : RegFile Nat),
          rf2.SetReg ⟨RegClass.gp, 1⟩ F V true = some rf3 →
          rf3.regs RegClass.gp 0 = rfEmpty.regs RegClass.gp 0 ∧
          ∀ G : Facet,
            (rf3.GetReg convNat ⟨RegClass.gp, 0⟩ G).map Prod.fst =
              (rfEmpty.GetReg convNat ⟨RegClass.gp, 0⟩ G).map Prod.fst)) :=
  ⟨rfl, rename_value_copy convNat rfEmpty ⟨RegClass.gp, 1⟩ ⟨RegClass.gp, 0⟩
    rfl⟩

/-- C2: for every `ValueMap` and facet `v` outside the supported set,
`at(v)` is a deterministic fatal contract failure (the assertion
`table.b[v] > 0` fails, modelled as `none`), never a returned value; for
every supported facet, `at(v)` designates a valid slot of the map. -/
theorem at_contract {Val : Type} (m : ValueMap Val) (E : List Facet)
    (hwf : m.WF E) (v : Facet) :
    (v ∉ E → m.atIdx? v = none ∧ m.atGet v = none ∧
      ∀ x : Option Val, m.atSet v x = none) ∧
    (v ∈ E → ∃ i, m.atIdx? v = some i ∧ i < m.values.length ∧
      m.atGet v = some (m.values.getD i none)) := by
  constructor
  · intro hv
    have hidx : m.atIdx? v = none :=
      (atIdx?_eq_none_iff m v).mpr (by rw [hwf.1]; exact hv)
    exact ⟨hidx, by simp [ValueMap.atGet, hidx],
      fun x => by simp [ValueMap.atSet, hidx]⟩
  · intro hv
    have hvm : v ∈ m.facets := by rw [hwf.1]; exact hv
    have hb : backward m.facets 0 v ≠ 0 := fun h0 =>
      ((backward_eq_zero_iff m.facets 0 v).mp h0) hvm
    have hble : backward m.facets 0 v ≤ m.facets.length := by
      have h := backward_le m.facets 0 v
      omega
    refine ⟨backward m.facets 0 v - 1, by simp [ValueMap.atIdx?, hb], ?_, ?_⟩
    · rw [hwf.2, ← hwf.1]
      omega
    · exact atGet_of_idx m v _ (by simp [ValueMap.atIdx?, hb])

/-- Witness for C2, at `Val := Nat` on the general-purpose map: facet
`I16` is supported, and the theorem also covers the fatal branch. -/
theorem at_contract_witness :
    (emptyMap Nat RegClass.gp).WF gpFacets ∧ Facet.I16 ∈ gpFacets ∧
    (∃ i, (emptyMap Nat RegClass.gp).atIdx? Facet.I16 = some i ∧
      i < (emptyMap Nat RegClass.gp).values.length ∧
      (emptyMap Nat RegClass.gp).atGet Facet.I16 =
        some ((emptyMap Nat RegClass.gp).values.getD i none)) := by
  have hwf : (emptyMap Nat RegClass.gp).WF gpFacets := ⟨rfl, rfl⟩
  exact ⟨hwf, by decide,
    (at_contract (emptyMap Nat RegClass.gp) gpFacets hwf Facet.I16).2
      (by decide)⟩

/-- C3: a freshly constructed `FlagCache` has `valid = false`;
`update(a, b)` makes `valid = true` with `lhs = a` and `rhs = b`; a
second `update(c, d)` unconditionally overwrites both operands with `c`
and `d`, with no accumulation or merge (this holds from any prior cache
state). -/
theorem flagcache_update_overwrite {Val : Type} :
    ∀ (l r a b c d : Option Val) (prior : FlagCache Val),
      (FlagCache.init l r).valid = false ∧
      ((FlagCache.init l r).update a b).valid = true ∧
      ((FlagCache.init l r).update a b).lhs = a ∧
      ((FlagCache.init l r).update a b).rhs = b ∧
      (((FlagCache.init l r).update a b).update c d).valid = true ∧
      (((FlagCache.init l r).update a b).update c d).lhs = c ∧
      (((FlagCache.init l r).update a b).update c d).rhs = d ∧
      (prior.update c d).lhs = c ∧ (prior.update c d).rhs = d :=
  fun _ _ _ _ _ _ _ => ⟨rfl, rfl, rfl, rfl, rfl, rfl, rfl, rfl, rfl⟩

/-- C4: for every `ValueMap` built from a duplicate-free ordered
supported-facet list `E`, the lookup table maps the `i`-th facet to slot
`i` (`at` designates it without search), the round-trip
`f[b[Ei] - 1] = Ei` holds, distinct supported facets get distinct slots,
the backward table is 0 exactly on unsupported facets, and `facets()`
enumerates exactly `E` in declaration order. -/
theorem lookup_table_dense {Val : Type} (E : List Facet) (hE : E.Nodup)
    (m : ValueMap Val) (hfac : m.facets = E) :
    (∀ (i : Nat) (hi : i < E.length), m.atIdx? (E[i]) = some i) ∧
    (∀ (i : Nat) (hi : i < E.length),
      E.getD (backward E 0 (E[i]) - 1) Facet.I64 = E[i]) ∧
    (∀ v ∈ E, ∀ w ∈ E, v ≠ w → m.atIdx? v ≠ m.atIdx? w) ∧
    (∀ v : Facet, backward E 0 v = 0 ↔ v ∉ E) ∧
    m.facets = E := by
  subst hfac
  refine ⟨fun i hi => atIdx?_getElem m hE i hi, ?_, ?_, ?_, rfl⟩
  · intro i hi
    have hb : backward m.facets 0 (m.facets[i]) = 0 + i + 1 :=
      backward_getElem m.facets hE 0 i hi
    rw [hb]
    simp only [Nat.zero_add, Nat.add_sub_cancel]
    exact List.getD_eq_getElem m.facets Facet.I64 hi
  · intro v hv w hw hne
    obtain ⟨i, hi, hie⟩ := List.mem_iff_getElem.mp hv
    obtain ⟨j, hj, hje⟩ := List.mem_iff_getElem.mp hw
    have h1 : m.atIdx? v = some i := by
      have h := atIdx?_getElem m hE i hi
      rwa [hie] at h
    have h2 : m.atIdx? w = some j := by
      have h := atIdx?_getElem m hE j hj
      rwa [hje] at h
    rw [h1, h2]
    intro hij
    apply hne
    have hij2 : i = j := by simpa using hij
    rw [← hie, ← hje]
    subst hij2
    rfl
  · exact fun v => backward_eq_zero_iff m.facets 0 v

/-- Witness for C4, at `Val := Nat` on the general-purpose map. -/
theorem lookup_table_dense_witness :
    gpFacets.Nodup ∧ (emptyMap Nat RegClass.gp).facets = gpFacets ∧
    (emptyMap Nat RegClass.gp).atIdx? Facet.I16 = some 2 ∧
    gpFacets.getD (backward gpFacets 0 Facet.I16 - 1) Facet.I64 =
      Facet.I16 ∧
    (emptyMap Nat RegClass.gp).atIdx? Facet.I64 ≠
      (emptyMap Nat RegClass.gp).atIdx? Facet.PTR ∧
    (backward gpFacets 0 Facet.I = 0 ↔ Facet.I ∉ gpFacets) := by
  have h := lookup_table_dense gpFacets (by decide)
    (emptyMap Nat RegClass.gp) rfl
  exact ⟨by decide, rfl, h.1 2 (by decide), h.2.1 2 (by decide),
    h.2.2.1 Facet.I64 (by decide) Facet.PTR (by decide) (by decide),
    h.2.2.2.1 Facet.I⟩

/-- C6: every pseudo-facet (`I`, `VI8`, `VI16`, `VI32`, `VI64`, `VF32`,
`VF64`) lies outside the supported-facet sets of both register classes,
so using it as a slot key is a fatal contract failure (`at` aborts on
it, for lookup, read and write alike) and no slot of either class is
ever associated with a pseudo-facet. -/
theorem pseudo_facets_unsupported {Val : Type} :
    ∀ P ∈ pseudoFacets,
      P ∉ gpFacets ∧ P ∉ sseFacets ∧
      ∀ (m : ValueMap Val),
        m.facets = gpFacets ∨ m.facets = sseFacets →
        m.atIdx? P = none ∧ m.atGet P = none ∧
        ∀ x : Option Val, m.atSet P x = none := by
  intro P hP
  have hmem : ∀ Q ∈ pseudoFacets, Q ∉ gpFacets ∧ Q ∉ sseFacets := by decide
  obtain ⟨hgp, hsse⟩ := hmem P hP
  refine ⟨hgp, hsse, ?_⟩
  intro m hm
  have hout : P ∉ m.facets := by
    rcases hm with h | h <;> rw [h]
    · exact hgp
    · exact hsse
  have hidx : m.atIdx? P = none := (atIdx?_eq_none_iff m P).mpr hout
  exact ⟨hidx, by simp [ValueMap.atGet, hidx],
    fun x => by simp [ValueMap.atSet, hidx]⟩

/-- Witness for C6, at `Val := Nat`, pseudo-facet `I` on the
general-purpose map. -/
theorem pseudo_facets_unsupported_witness :
    Facet.I ∈ pseudoFacets ∧
    ((emptyMap Nat RegClass.gp).facets = gpFacets ∨
      (emptyMap Nat RegClass.gp).facets = sseFacets) ∧
    Facet.I ∉ gpFacets ∧ Facet.I ∉ sseFacets ∧
    (emptyMap Nat RegClass.gp).atIdx? Facet.I = none ∧
    (emptyMap Nat RegClass.gp).atGet Facet.I = none ∧
    (emptyMap Nat RegClass.gp).atSet Facet.I (some 5) = none := by
  have h := @pseudo_facets_unsupported Nat Facet.I (by decide)
  have h2 := h.2.2 (emptyMap Nat RegClass.gp) (Or.inl rfl)
  exact ⟨by decide, Or.inl rfl, h.1, h.2.1, h2.1, h2.2.1, h2.2.2 (some 5)⟩

/-- C7: the general-purpose register class supports exactly the six
facets 64-bit, 32-bit, 16-bit, 8-bit, 8-bit-high and pointer, no more
and no fewer. -/
theorem gp_supported_facets_exact :
    gpFacets.length = 6 ∧ gpFacets.Nodup ∧
    ∀ f : Facet, f ∈ gpFacets ↔
      (f = Facet.I64 ∨ f = Facet.I32 ∨ f = Facet.I16 ∨ f = Facet.I8 ∨
        f = Facet.I8H ∨ f = Facet.PTR) := by
  refine ⟨rfl, by decide, ?_⟩
  intro f
  cases f <;> decide

/-- C8 counterexample: the public interface of `class RegFile` declares
no `GetInstructionPointer` or `SetInstructionPointer` member. -/
theorem no_ip_accessors :
    "GetInstructionPointer" ∉ RegFilePublicMembers ∧
    "SetInstructionPointer" ∉ RegFilePublicMembers := by
  decide

/-- C8 amended: `RegFile` holds a dedicated instruction-pointer slot,
but only as the private data member `reg_ip`; its public interface is
exactly the constructor, `GetReg`, `SetReg`, `Rename`, `GetFlag`,
`SetFlag`, `GetFlagCache` and the `FlagCache` type, with no dedicated
instruction-pointer accessors. -/
theorem ip_slot_private_only :
    "reg_ip" ∈ RegFilePrivateMembers ∧
    "GetInstructionPointer" ∉ RegFilePublicMembers ∧
    "SetInstructionPointer" ∉ RegFilePublicMembers ∧
    RegFilePublicMembers.length = 8 ∧
    ∀ s ∈ RegFilePublicMembers,
      s = "FlagCache" ∨ s = "RegFile" ∨ s = "GetReg" ∨ s = "SetReg" ∨
      s = "Rename" ∨ s = "GetFlag" ∨ s = "SetFlag" ∨
      s = "GetFlagCache" := by
  refine ⟨by decide, by decide, by decide, rfl, by decide⟩

/-- C9: the `RegFile` constructor initializes only the basic-block
pointer and the flag cache (`valid = false`); the register maps,
`reg_ip` and the flag slots keep their indeterminate contents, so a
freshly constructed `RegFile` need not be in the all-slots-empty state
and must be seeded externally. -/
theorem constructor_partial_init :
    (∀ (Val : Type) (block : Nat) (indet : RegFile Val),
      (RegFile.construct block indet).llvm_block = block ∧
      (RegFile.construct block indet).flag_cache.valid = false ∧
      (RegFile.construct block indet).regs = indet.regs ∧
      (RegFile.construct block indet).reg_ip = indet.reg_ip ∧
      (RegFile.construct block indet).flags = indet.flags ∧
      (RegFile.construct block indet).flag_cache.lhs =
        indet.flag_cache.lhs ∧
      (RegFile.construct block indet).flag_cache.rhs =
        indet.flag_cache.rhs) ∧
    (∃ (block : Nat) (indet : RegFile Nat),
      ¬ (RegFile.construct block indet).AllEmpty) := by
  refine ⟨fun Val block indet => ⟨rfl, rfl, rfl, rfl, rfl, rfl, rfl⟩,
    0, { rfEmpty with reg_ip := some 7 }, ?_⟩
  intro h
  have hip := h.2.1
  simp [RegFile.construct] at hip

/-- C10: `FlagCache` validity is monotone: its only operation, `update`,
always leaves `valid = true`, so along any sequence of operations a
cache that is valid never becomes invalid again. -/
theorem flagcache_valid_monotone {Val : Type} :
    (∀ (cache : FlagCache Val) (l r : Option Val),
      (cache.update l r).valid = true) ∧
    (∀ (c c2 : FlagCache Val), c.valid = true → FlagCache.Reach c c2 →
      c2.valid = true) := by
  refine ⟨fun _ _ _ => rfl, fun c c2 hv hr => ?_⟩
  induction hr with
  | refl => exact hv
  | step b l r _ _ => rfl

/-- Witness for C10, at `Val := Nat`: an updated (hence valid) cache
stays valid across a further `update`. -/
theorem flagcache_valid_monotone_witness :
    (((FlagCache.init none none : FlagCache Nat).update (some 1)
        (some 2)).update (some 3) (some 4)).valid = true :=
  (@flagcache_valid_monotone Nat).2 _ _ rfl
    (FlagCache.Reach.step _ _ (some 3) (some 4) (FlagCache.Reach.refl _))

end Rellume
